import Mathlib

/-!
Shallow embedding of `src/PhloxAR/linescan.py` (class `LineScan`).

A `LineScan` is a Python list of numeric samples carrying spatial metadata.
We model samples over ℚ (exact arithmetic stands in for Python int/float
arithmetic; `smooth` uses ℝ because its weights involve `exp`).  Methods
that can return Python `None`, or raise, are modelled with `Option`.
-/

namespace PhloxAR

/-- The metadata-carrying signal container.  `samples` is the underlying
Python list; the remaining fields are the instance attributes set by
`LineScan.__init__` / `_update`.  `image` is an opaque handle (never
dereferenced by the code). -/
structure LineScan (α : Type) where
  samples : List α
  image : Option ℕ := none
  pt1 : Option (ℤ × ℤ) := none
  pt2 : Option (ℤ × ℤ) := none
  row : Option ℤ := none
  col : Option ℤ := none
  channel : ℤ := -1
  point_loc : List (ℤ × ℤ) := []
deriving DecidableEq, Repr

/-- Keyword arguments accepted by `LineScan.__init__`.  A field is `none`
when the keyword is not passed. -/
structure Kwargs where
  image : Option ℕ := none
  pt1 : Option (ℤ × ℤ) := none
  pt2 : Option (ℤ × ℤ) := none
  row : Option ℤ := none
  col : Option ℤ := none
  channel : Option ℤ := none
  point_loc : Option (List (ℤ × ℤ)) := none
deriving DecidableEq, Repr

/-- `zip(range(0, n), range(0, n))`: the identity coordinate mapping
installed by the constructor. -/
def identityLoc (n : ℕ) : List (ℤ × ℤ) :=
  (List.range n).map (fun i : ℕ => ((i : ℤ), (i : ℤ)))

/-- `LineScan.__init__(args, **kwargs)`.  The kwargs loop only honours keys
already present in the instance `__dict__`; at that point the instance dict
holds `image`, `pt1`, `pt2`, `row`, `col`, `channel` (set just above the
loop) but NOT `point_loc`, which is only a class attribute.  Hence a
`point_loc=` keyword is silently dropped, `self.point_loc` is still `None`
after the loop, and the identity mapping is always installed. -/
def mkLineScan {α : Type} (args : List α) (kw : Kwargs) : LineScan α :=
  { samples := args
    image := kw.image
    pt1 := kw.pt1
    pt2 := kw.pt2
    row := kw.row
    col := kw.col
    channel := kw.channel.getD (-1)
    point_loc := identityLoc args.length }

/-- `LineScan._update(obj)`: copy every metadata attribute of `obj`
(here `s`) onto the freshly built result `r`. -/
def LineScan.update {α : Type} (r s : LineScan α) : LineScan α :=
  { r with
    image := s.image
    pt1 := s.pt1
    pt2 := s.pt2
    row := s.row
    col := s.col
    channel := s.channel
    point_loc := s.point_loc }

/-- The five metadata fields named by the propagation contract:
source (image), endpoint_a/endpoint_b (pt1/pt2), channel,
coordinates (point_loc). -/
def metaOf {α : Type} (s : LineScan α) :
    Option ℕ × Option (ℤ × ℤ) × Option (ℤ × ℤ) × ℤ × List (ℤ × ℤ) :=
  (s.image, s.pt1, s.pt2, s.channel, s.point_loc)

/-- `LineScan.__getitem__` with a slice key `[a:b]` (for `0 ≤ a ≤ b`):
returns `LineScan(item)` — a fresh container built with NO keyword
arguments at all. -/
def LineScan.sliceLS {α : Type} (s : LineScan α) (a b : ℕ) : LineScan α :=
  mkLineScan ((s.samples.drop a).take (b - a)) {}

/-- `LineScan.__add__`: on equal lengths, elementwise sum then `_update`;
on mismatch, prints "Size mismatch." and returns `None`. -/
def LineScan.add (s other : LineScan ℚ) : Option (LineScan ℚ) :=
  if s.samples.length = other.samples.length then
    some ((mkLineScan (List.zipWith (· + ·) s.samples other.samples) {}).update s)
  else
    none

/-- `LineScan.__sub__`: elementwise difference, same shape policy. -/
def LineScan.sub (s other : LineScan ℚ) : Option (LineScan ℚ) :=
  if s.samples.length = other.samples.length then
    some ((mkLineScan (List.zipWith (· - ·) s.samples other.samples) {}).update s)
  else
    none

/-- `LineScan.__mul__`: elementwise product, same shape policy. -/
def LineScan.mul (s other : LineScan ℚ) : Option (LineScan ℚ) :=
  if s.samples.length = other.samples.length then
    some ((mkLineScan (List.zipWith (· * ·) s.samples other.samples) {}).update s)
  else
    none

/-- `LineScan.__div__`: on mismatch returns `None`; on a zero divisor the
`ZeroDivisionError` branch returns `None`; otherwise it builds the quotient
LineScan and calls `_update` — but the method body ends without a `return`
statement, so Python returns `None` on this path as well.  Every path of
the source yields `None`. -/
def LineScan.div (s other : LineScan ℚ) : Option (LineScan ℚ) :=
  if s.samples.length = other.samples.length then
    if other.samples.any (fun x => decide (x = 0)) then
      none
    else
      -- ret_val = LineScan(map(operator.div, self, other)); ret_val._update(self)
      -- ... and then the function falls off the end: implicit `return None`.
      let _ret := (mkLineScan (List.zipWith (· / ·) s.samples other.samples) {}).update s
      none
  else
    none

/-- The samples part of `LineScan.smooth` on the non-raising branch
`degree ≥ 1`, for an arbitrary weight vector `w` of length `2*degree - 1`
(the source first builds the Gaussian weight list, then uses it only
through elementwise products and its sum).
`smoothed[i] = sum(self[i:i+window] * weight) / sum(weight)`;  the result is
`self[0:degree-1] + smoothed + self[-degree:]`.  For `degree ≥ 1` no
division by an empty-weight sum and no negative-bound slice occurs, so this
branch is total; the `degree = 0` raise is modelled in
`LineScan.smoothWith` below. -/
def smoothWithSamples {α : Type} [Field α] (w : List α) (degree : ℕ)
    (xs : List α) : List α :=
  let window := 2 * degree - 1
  let smoothed := (List.range (xs.length - window)).map (fun i =>
    (List.zipWith (· * ·) ((xs.drop i).take window) w).sum / w.sum)
  xs.take (degree - 1) ++ smoothed ++ xs.drop (xs.length - degree)

/-- The Gaussian weight list of `LineScan.smooth`:
`gauss = 1 / exp((4 * ((i - degree + 1) / window)) ** 2)` for
`i in range(window)`, `window = 2*degree - 1`. -/
noncomputable def gaussWeights (degree : ℕ) : List ℝ :=
  (List.range (2 * degree - 1)).map (fun i : ℕ =>
    1 / Real.exp ((4 * (((i : ℝ) - degree + 1) / (2 * degree - 1))) ^ 2))

/-- `LineScan.smooth` with an explicit weight vector: builds the new
container (the `point_loc=` keyword is dropped by the constructor) and then
calls `_update(self)`.  At `degree = 0` the source always raises — the
weight array is empty, giving a broadcast `ValueError` (`len ≥ 3`) or a
`0/0` `ZeroDivisionError` — modelled as `none`; for `degree ≥ 1` every
slice and division is well-defined and a Signal is returned. -/
def LineScan.smoothWith {α : Type} [Field α] (w : List α) (degree : ℕ)
    (s : LineScan α) : Option (LineScan α) :=
  if degree = 0 then none
  else
    some ((mkLineScan (smoothWithSamples w degree s.samples)
      { image := s.image, point_loc := some s.point_loc,
        pt1 := s.pt1, pt2 := s.pt2 }).update s)

/-- `LineScan.smooth(degree)`: Gaussian smoothing with the weights above. -/
noncomputable def LineScan.smooth (degree : ℕ) (s : LineScan ℝ) :
    Option (LineScan ℝ) :=
  s.smoothWith (gaussWeights degree) degree

/-- `npy.max` on a nonempty list (raises on an empty one, handled at the
call sites). -/
def npMax (xs : List ℚ) : ℚ :=
  match xs with
  | [] => 0
  | x :: t => t.foldl max x

/-- `npy.min` on a nonempty list. -/
def npMin (xs : List ℚ) : ℚ :=
  match xs with
  | [] => 0
  | x :: t => t.foldl min x

/-- `LineScan.normalize`: divide every sample by the maximum.  `np.max` of
an empty array raises, modelled as `none`.  (Sample arithmetic is modelled
in ℚ, where division is total; a zero maximum gives numpy inf/nan floats,
a difference no theorem below depends on.) -/
def LineScan.normalize (s : LineScan ℚ) : Option (LineScan ℚ) :=
  match s.samples with
  | [] => none
  | _ =>
    let m := npMax s.samples
    some ((mkLineScan (s.samples.map (fun x => x / m))
      { image := s.image, point_loc := some s.point_loc,
        pt1 := s.pt1, pt2 := s.pt2 }).update s)

/-- `LineScan.scale(val_range)`: affine remap of `[vmin, vmax]` onto
`[min(val_range), max(val_range)]`. -/
def LineScan.scale (s : LineScan ℚ) (lo hi : ℚ) : Option (LineScan ℚ) :=
  match s.samples with
  | [] => none
  | _ =>
    let vmax := npMax s.samples
    let vmin := npMin s.samples
    let a := min lo hi
    let b := max lo hi
    some ((mkLineScan
      (s.samples.map (fun x => (b - a) / (vmax - vmin) * (x - vmin) + a))
      { image := s.image, point_loc := some s.point_loc,
        pt1 := s.pt1, pt2 := s.pt2 }).update s)

/-- `npy.median`: middle element of the sorted list for odd length, mean of
the two middle elements for even length (empty input is numpy nan, outside
the modelled domain). -/
def npMedian (xs : List ℚ) : ℚ :=
  let srt := List.insertionSort (· ≤ ·) xs
  if xs.length % 2 = 1 then srt.getD (xs.length / 2) 0
  else (srt.getD (xs.length / 2 - 1) 0 + srt.getD (xs.length / 2) 0) / 2

/-- `LineScan.median(size)`: force `size` odd, `skip = size // 2`, keep the
first `skip` samples, then for `i in range(skip, len - skip)` append
`npy.median(self[i-skip:i+skip])` — note the window `[i-skip, i+skip)` has
`2*skip` elements, the sample at `i+skip` is NOT included — and finally
append `self[-skip:]` (which is the whole list when `skip = 0`, Python's
`[-0:]`). -/
def LineScan.median (s : LineScan ℚ) (size : ℕ) : LineScan ℚ :=
  let sz := if size % 2 = 0 then size + 1 else size
  let skip := sz / 2
  let out :=
    s.samples.take skip
      ++ (List.range' skip (s.samples.length - skip - skip)).map (fun i =>
            npMedian ((s.samples.drop (i - skip)).take (i + skip - (i - skip))))
      ++ (if skip = 0 then s.samples
          else s.samples.drop (s.samples.length - skip))
  (mkLineScan out
    { image := s.image, point_loc := some s.point_loc,
      pt1 := s.pt1, pt2 := s.pt2 }).update s

/-- One coefficient of the full convolution `a * v` at position `n`:
`sum_k a[k] * v[n-k]` over the valid `k`. -/
def npConvolveFull (a v : List ℚ) (n : ℕ) : ℚ :=
  ((List.range a.length).map (fun k =>
    if k ≤ n then a.getD k 0 * v.getD (n - k) 0 else 0)).sum

/-- `npy.convolve(a, v, 'same')`: the centred `max(len(a), len(v))`
coefficients of the full convolution. -/
def npConvolveSame (a v : List ℚ) : List ℚ :=
  let offset := (min a.length v.length - 1) / 2
  (List.range (max a.length v.length)).map (fun j => npConvolveFull a v (j + offset))

/-- `LineScan.convolve(kernel)`: `np.convolve` raises
`ValueError: a/v cannot be empty` when the signal or the kernel is empty
(modelled as `none`); otherwise the result is built through the
constructor only — there is no `_update` call, so the dropped `point_loc=`
keyword is not repaired and the output coordinates are the identity
mapping. -/
def LineScan.convolve (s : LineScan ℚ) (kernel : List ℚ) :
    Option (LineScan ℚ) :=
  if s.samples = [] ∨ kernel = [] then none
  else
    some (mkLineScan (npConvolveSame s.samples kernel)
      { image := s.image, point_loc := some s.point_loc,
        pt1 := s.pt1, pt2 := s.pt2, channel := some s.channel })

/-- `LineScan.threshold(threshold, invert)`.  The source passes
`ptw=self.pt2` (a typo), which the constructor drops; `_update` then
repairs all metadata anyway. -/
def LineScan.threshold (s : LineScan ℚ) (thr : ℚ) (inv : Bool) : LineScan ℚ :=
  let high : ℚ := if inv then 0 else 255
  let low : ℚ := if inv then 255 else 0
  (mkLineScan (s.samples.map (fun p => if p < thr then low else high))
    { image := s.image, point_loc := some s.point_loc,
      pt1 := s.pt1 }).update s

/-- `LineScan.invert(max=255)`: the `max` parameter of the source is unused,
the body always computes `255 - p`; same `ptw=` typo as `threshold`. -/
def LineScan.invert (s : LineScan ℚ) : LineScan ℚ :=
  (mkLineScan (s.samples.map (fun p => 255 - p))
    { image := s.image, point_loc := some s.point_loc,
      pt1 := s.pt1 }).update s

/-- Python list indexing `lut[p]`: indices in `[0, len)` read directly,
indices in `[-len, 0)` read from the end, everything else raises
`IndexError` (modelled as `none`). -/
def pyListGet (lut : List ℤ) (p : ℤ) : Option ℤ :=
  if 0 ≤ p ∧ p < (lut.length : ℤ) then some (lut.getD p.toNat 0)
  else if -(lut.length : ℤ) ≤ p ∧ p < 0 then
    some (lut.getD ((lut.length : ℤ) + p).toNat 0)
  else none

/-- The `for p in self: out.append(lut[p])` loop of `apply_lut`: the first
out-of-range sample raises, aborting the loop. -/
def lutMapList (lut : List ℤ) : List ℤ → Option (List ℤ)
  | [] => some []
  | p :: ps =>
    match pyListGet lut p with
    | none => none
    | some v => (lutMapList lut ps).map (fun t => v :: t)

/-- `LineScan.apply_lut(lut)`: map every sample through the table, then
`_update`. -/
def LineScan.apply_lut (s : LineScan ℤ) (lut : List ℤ) : Option (LineScan ℤ) :=
  (lutMapList lut s.samples).map (fun out =>
    (mkLineScan out
      { image := s.image, point_loc := some s.point_loc,
        pt1 := s.pt1, pt2 := s.pt2 }).update s)

/-- Python `max` of a list (`None` on an empty list stands for the raised
`ValueError`, never reached by `find_peaks`). -/
def pyMax (xs : List ℚ) : Option ℚ :=
  match xs with
  | [] => none
  | x :: t => some (t.foldl max x)

/-- Python `min` of a list. -/
def pyMin (xs : List ℚ) : Option ℚ :=
  match xs with
  | [] => none
  | x :: t => some (t.foldl min x)

/-- Loop state of `find_peaks` / `find_valleys`: the running extremum
(`none` models the `-npy.Inf` sentinel), its position, and the features
emitted so far. -/
structure ScanState where
  best : Option ℚ
  pos : ℕ
  found : List (ℕ × ℚ)
deriving DecidableEq, Repr

/-- One iteration of the `find_peaks` loop at `(i, val)`:
`if val > maximum` (always true against `-Inf`) update the running maximum;
then evaluate `max(self[max(0, i-width):i+width])` — `max` of an EMPTY
slice (which happens for every `i` when `width = 0`) raises `ValueError`,
modelled as `none` — and emit `(max_pos, maximum)` and reset when that
neighbourhood maximum `+ delta < maximum`. -/
def peakStep (xs : List ℚ) (width : ℕ) (delta : ℚ)
    (st : ScanState) (iv : ℕ × ℚ) : Option ScanState :=
  let i := iv.1
  let val := iv.2
  let upd : Option ℚ × ℕ :=
    match st.best with
    | none => (some val, i)
    | some m => if m < val then (some val, i) else (some m, st.pos)
  let nbhd := (xs.drop (i - width)).take (i + width - (i - width))
  match pyMax nbhd with
  | none => none
  | some nm =>
    match upd.1 with
    | none => some { best := none, pos := upd.2, found := st.found }
    | some m =>
      if nm + delta < m then
        some { best := none, pos := upd.2, found := st.found ++ [(upd.2, m)] }
      else
        some { best := some m, pos := upd.2, found := st.found }

/-- `LineScan.find_peaks(window, delta)`: scan `enumerate(self)` with
`width = int(window / 2)` starting from `maximum = -npy.Inf`; a raised
`ValueError` from `max` of an empty window aborts the whole call
(`none`). -/
def LineScan.find_peaks (s : LineScan ℚ) (window : ℕ) (delta : ℚ) :
    Option (List (ℕ × ℚ)) :=
  let width := window / 2
  (s.samples.enum.foldlM (peakStep s.samples width delta)
    { best := none, pos := 0, found := [] }).map (fun st => st.found)

/-- One iteration of the `find_valleys` loop.  The source initialises and
resets `minimum` to `-npy.Inf` (not `+Inf`): `val < minimum` is then false
for every sample, and the emission test
`min(...) - delta < minimum` is likewise false against `-Inf`.  As in
`peakStep`, `min` of an empty neighbourhood (every `i` when `width = 0`)
raises `ValueError`, modelled as `none`. -/
def valleyStep (xs : List ℚ) (width : ℕ) (delta : ℚ)
    (st : ScanState) (iv : ℕ × ℚ) : Option ScanState :=
  let i := iv.1
  let val := iv.2
  let upd : Option ℚ × ℕ :=
    match st.best with
    | none => (none, st.pos)
    | some m => if val < m then (some val, i) else (some m, st.pos)
  let nbhd := (xs.drop (i - width)).take (i + width - (i - width))
  match pyMin nbhd with
  | none => none
  | some nm =>
    match upd.1 with
    | none => some { best := none, pos := upd.2, found := st.found }
    | some m =>
      if nm - delta < m then
        some { best := none, pos := upd.2, found := st.found ++ [(upd.2, m)] }
      else
        some { best := some m, pos := upd.2, found := st.found }

/-- `LineScan.find_valleys(window, delta)`: as `find_peaks`, a raised
`ValueError` from `min` of an empty window aborts the whole call. -/
def LineScan.find_valleys (s : LineScan ℚ) (window : ℕ) (delta : ℚ) :
    Option (List (ℕ × ℚ)) :=
  let width := window / 2
  (s.samples.enum.foldlM (valleyStep s.samples width delta)
    { best := none, pos := 0, found := [] }).map (fun st => st.found)

/-- The boolean mask
`npy.r_[True, tmp[1:] < tmp[:-1]] & npy.r_[tmp[:-1] < tmp[1:], True]` of
`local_minima`. -/
def minimaMask (xs : List ℚ) : List Bool :=
  (List.range xs.length).map (fun j =>
    (decide (j = 0) || decide (xs.getD j 0 < xs.getD (j - 1) 0)) &&
    (decide (j = xs.length - 1) || decide (xs.getD j 0 < xs.getD (j + 1) 0)))

/-- The analogous mask of `local_maxmima` (with `>`). -/
def maximaMask (xs : List ℚ) : List Bool :=
  (List.range xs.length).map (fun j =>
    (decide (j = 0) || decide (xs.getD (j - 1) 0 < xs.getD j 0)) &&
    (decide (j = xs.length - 1) || decide (xs.getD (j + 1) 0 < xs.getD j 0)))

/-- Models `idx is True`: object identity between a boolean ndarray and the
`True` singleton, which never holds for an array. -/
def ndarrayIsTrueSingleton (_mask : List Bool) : Bool := false

/-- `LineScan.local_minima`: builds the neighbour mask, but then calls
`npy.where(idx is True)`; the identity test is false, so the index array is
always empty and so is the result. -/
def LineScan.local_minima (s : LineScan ℚ) : List (ℕ × ℚ × (ℤ × ℤ)) :=
  let mask := minimaMask s.samples
  let idxs : List ℕ :=
    if ndarrayIsTrueSingleton mask then
      (List.range mask.length).filter (fun j => mask.getD j false)
    else []
  idxs.map (fun j => (j, s.samples.getD j 0, s.point_loc.getD j (0, 0)))

/-- `LineScan.local_maxmima` (name as in the source): same `is True` defect
as `local_minima`. -/
def LineScan.local_maxmima (s : LineScan ℚ) : List (ℕ × ℚ × (ℤ × ℤ)) :=
  let mask := maximaMask s.samples
  let idxs : List ℕ :=
    if ndarrayIsTrueSingleton mask then
      (List.range mask.length).filter (fun j => mask.getD j false)
    else []
  idxs.map (fun j => (j, s.samples.getD j 0, s.point_loc.getD j (0, 0)))

/-! ## Theorems -/

lemma metaOf_update {α : Type} (r s : LineScan α) :
    metaOf (r.update s) = metaOf s := rfl

/-- Python `min`/`max` of a nonempty list does not raise. -/
lemma pyMin_of_ne_nil (l : List ℚ) (h : l ≠ []) : ∃ v, pyMin l = some v := by
  cases l with
  | nil => exact absurd rfl h
  | cons x t => exact ⟨t.foldl min x, rfl⟩

/-- For `width ≥ 1` and a scan position `i` inside the signal, the
neighbourhood `self[max(0, i-width):i+width]` is nonempty. -/
lemma nbhd_ne_nil (xs : List ℚ) (width i : ℕ) (hw : 1 ≤ width)
    (hi : i < xs.length) :
    (xs.drop (i - width)).take (i + width - (i - width)) ≠ [] := by
  have hdrop : xs.drop (i - width) ≠ [] := by
    rw [Ne, List.drop_eq_nil_iff]
    omega
  rw [Ne, List.take_eq_nil_iff]
  push_neg
  exact ⟨by omega, hdrop⟩

/-- `valleyStep` with `width ≥ 1` at an in-range position fixes any state
whose running minimum is the `-Inf` sentinel: no sample is below `-Inf`
and the emission test fails against `-Inf`. -/
lemma valleyStep_none (xs : List ℚ) (width : ℕ) (delta : ℚ)
    (st : ScanState) (iv : ℕ × ℚ) (h : st.best = none)
    (hw : 1 ≤ width) (hi : iv.1 < xs.length) :
    valleyStep xs width delta st iv = some st := by
  rcases st with ⟨b, p, f⟩
  cases h
  obtain ⟨v, hv⟩ := pyMin_of_ne_nil _ (nbhd_ne_nil xs width iv.1 hw hi)
  simp [valleyStep, hv]

lemma find_valleys_foldlM (xs : List ℚ) (width : ℕ) (delta : ℚ)
    (hw : 1 ≤ width) (l : List (ℕ × ℚ)) (st : ScanState)
    (h : st.best = none) (hmem : ∀ p ∈ l, p.1 < xs.length) :
    l.foldlM (valleyStep xs width delta) st = some st := by
  induction l generalizing st with
  | nil => rfl
  | cons a t ih =>
    rw [List.foldlM_cons,
      valleyStep_none xs width delta st a h hw (hmem a (List.mem_cons_self a t))]
    exact ih st h (fun p hp => hmem p (List.mem_cons_of_mem a hp))

/-- C10 fails on the code for `window ≤ 1`: then `width = int(window/2) = 0`
and the neighbourhood `self[i:i]` is empty, so `min([])` raises
`ValueError` on the very first iteration over a nonempty signal — the
function raises instead of returning the empty list. -/
theorem C10_counterexample :
    (mkLineScan [(1 : ℚ)] {}).find_valleys 1 3 = none ∧
    (none : Option (List (ℕ × ℚ))) ≠ some [] := by
  constructor
  · decide
  · simp

/-- C10 amended: for `window ≥ 2` (so `width = window/2 ≥ 1`, every
neighbourhood nonempty) the valley finder returns the empty list — its
running minimum is initialised to `-Inf` and compared with strict `<`, so
no sample ever becomes the running minimum and no valley is emitted.  For
`window ≤ 1` on a nonempty signal it instead raises `ValueError` (`min` of
the empty neighbourhood `self[i:i]`); on an empty signal the loop never
runs and the empty list is returned for every window. -/
theorem C10_amended_thm (s : LineScan ℚ) (window : ℕ) (delta : ℚ) :
    (2 ≤ window → s.find_valleys window delta = some []) ∧
    (window ≤ 1 → s.samples ≠ [] → s.find_valleys window delta = none) ∧
    (s.samples = [] → s.find_valleys window delta = some []) := by
  refine ⟨?_, ?_, ?_⟩
  · intro hwin
    show (s.samples.enum.foldlM (valleyStep s.samples (window / 2) delta)
      { best := none, pos := 0, found := [] }).map (fun st => st.found)
      = some []
    rw [find_valleys_foldlM s.samples (window / 2) delta (by omega) _ _ rfl
      (fun p hp => List.fst_lt_of_mem_enum hp)]
    rfl
  · intro hwin hne
    have hwid : window / 2 = 0 := by omega
    obtain ⟨y, t, hyt⟩ := List.exists_cons_of_ne_nil hne
    show (s.samples.enum.foldlM (valleyStep s.samples (window / 2) delta)
      { best := none, pos := 0, found := [] }).map (fun st => st.found)
      = none
    rw [hwid, hyt]
    simp [List.enum_cons, List.foldlM_cons, valleyStep, pyMin]
  · intro hnil
    show (s.samples.enum.foldlM (valleyStep s.samples (window / 2) delta)
      { best := none, pos := 0, found := [] }).map (fun st => st.found)
      = some []
    rw [hnil]
    rfl

theorem C10_amended_witness :
    (mkLineScan [(1 : ℚ), 2] {}).find_valleys 2 3 = some [] ∧
    (mkLineScan [(1 : ℚ)] {}).find_valleys 1 3 = none ∧
    (mkLineScan ([] : List ℚ) {}).find_valleys 0 3 = some [] :=
  ⟨(C10_amended_thm (mkLineScan [(1 : ℚ), 2] {}) 2 3).1 (by decide),
   (C10_amended_thm (mkLineScan [(1 : ℚ)] {}) 1 3).2.1 (by decide) (by decide),
   (C10_amended_thm (mkLineScan ([] : List ℚ) {}) 0 3).2.2 (by decide)⟩

/-- C7 fails on the code: on samples `[1,5,1,5,1,5,1]` with `window=2`,
`delta=1`, the neighbourhood `self[i-1:i+1]` always contains a sample equal
to the running maximum 5, so `max(...) + 1 < 5` never holds and
`find_peaks` returns the empty list, not peaks at indices 1, 3, 5. -/
theorem C7_counterexample :
    (mkLineScan [(1 : ℚ), 5, 1, 5, 1, 5, 1] {}).find_peaks 2 1 ≠
      some [(1, 5), (3, 5), (5, 5)] := by
  norm_num [LineScan.find_peaks, mkLineScan, peakStep, pyMax, List.enum,
    List.enumFrom, List.foldlM, Option.bind]
  exact List.cons_ne_nil _ _

/-- C7 amended: on samples `[1,5,1,5,1,5,1]` the windowed peak finder with
`window=2`, `delta=1` returns no peaks at all — every window
`[i-1, i+1)` of an emission candidate still contains a sample equal to the
running maximum, so the strict margin test `max(window) + delta < maximum`
never succeeds. -/
theorem C7_amended_thm :
    (mkLineScan [(1 : ℚ), 5, 1, 5, 1, 5, 1] {}).find_peaks 2 1 = some [] := by
  norm_num [LineScan.find_peaks, mkLineScan, peakStep, pyMax, List.enum,
    List.enumFrom, List.foldlM, Option.bind]

/-- C6 fails on the code (code bug): `local_minima`/`local_maxmima` build
the correct strict-neighbour mask but then call `npy.where(idx is True)`;
the identity test against the `True` singleton is false for an array, so
both functions always return the empty list.  On `[5,1,5]` the mask marks
index 1 as a local minimum, yet the function reports nothing (and dually
for maxima on `[1,5,1]`). -/
theorem C6_local_extrema_empty :
    (mkLineScan [(5 : ℚ), 1, 5] {}).local_minima = [] ∧
    minimaMask [(5 : ℚ), 1, 5] = [false, true, false] ∧
    (mkLineScan [(1 : ℚ), 5, 1] {}).local_maxmima = [] ∧
    maximaMask [(1 : ℚ), 5, 1] = [false, true, false] := by decide

/-- C9 fails on the code (code bug): the `point_loc=` keyword is dropped by
`__init__` (the kwargs loop only honours keys already in the instance
`__dict__`, and `point_loc` is only a class attribute at that point), so an
explicitly supplied coordinates sequence is ignored and the identity
mapping is always installed. -/
theorem C9_point_loc_kwarg_dropped :
    (mkLineScan [(7 : ℤ), 8] { point_loc := some [(3, 4), (5, 6)] }).point_loc
      = [(0, 0), (1, 1)] ∧
    [((0 : ℤ), (0 : ℤ)), (1, 1)] ≠ [((3 : ℤ), (4 : ℤ)), (5, 6)] ∧
    (mkLineScan [(7 : ℤ), 8] {}).point_loc = [(0, 0), (1, 1)] := by decide

/-- C3 fails on the code (code bug): `__div__` ends without a `return`
statement after building the quotient and calling `_update`, so even for
equal-length operands with nonzero divisors it returns Python `None`
rather than the quotient Signal. -/
theorem C3_div_returns_none :
    (mkLineScan [(4 : ℚ)] {}).div (mkLineScan [2] {}) = none ∧
    (mkLineScan [(4 : ℚ)] {}).samples.length =
      (mkLineScan [(2 : ℚ)] {}).samples.length ∧
    (mkLineScan [(2 : ℚ)] {}).samples = [2] ∧ (2 : ℚ) ≠ 0 := by decide

/-- C2 fails on the code: on mismatched lengths none of the four operators
raises a ShapeError — each prints "Size mismatch." and returns the null
value `None`, exactly the degraded/null-like result the claim rules out. -/
theorem C2_counterexample :
    (mkLineScan [(1 : ℚ)] {}).add (mkLineScan [1, 2] {}) = none ∧
    (mkLineScan [(1 : ℚ)] {}).sub (mkLineScan [1, 2] {}) = none ∧
    (mkLineScan [(1 : ℚ)] {}).mul (mkLineScan [1, 2] {}) = none ∧
    (mkLineScan [(1 : ℚ)] {}).div (mkLineScan [1, 2] {}) = none := by decide

/-- C2 amended: for every pair of Signals of different lengths, each of
add, subtract, multiply and divide returns `None` (after printing a
size-mismatch message); no exception is raised and no Signal is
produced. -/
theorem C2_amended_thm (s t : LineScan ℚ)
    (h : s.samples.length ≠ t.samples.length) :
    s.add t = none ∧ s.sub t = none ∧ s.mul t = none ∧ s.div t = none := by
  refine ⟨?_, ?_, ?_, ?_⟩ <;>
    simp [LineScan.add, LineScan.sub, LineScan.mul, LineScan.div, h]

theorem C2_amended_witness :
    (mkLineScan [(1 : ℚ)] {}).samples.length ≠
      (mkLineScan [(1 : ℚ), 2] {}).samples.length ∧
    ((mkLineScan [(1 : ℚ)] {}).add (mkLineScan [1, 2] {}) = none ∧
     (mkLineScan [(1 : ℚ)] {}).sub (mkLineScan [1, 2] {}) = none ∧
     (mkLineScan [(1 : ℚ)] {}).mul (mkLineScan [1, 2] {}) = none ∧
     (mkLineScan [(1 : ℚ)] {}).div (mkLineScan [1, 2] {}) = none) :=
  ⟨by decide, C2_amended_thm _ _ (by decide)⟩

lemma lutMapList_some (lut : List ℤ) (ps : List ℤ)
    (h : ∀ p ∈ ps, -(lut.length : ℤ) ≤ p ∧ p < lut.length) :
    lutMapList lut ps = some (ps.map (fun p =>
      lut.getD (if p < 0 then ((lut.length : ℤ) + p).toNat else p.toNat) 0)) := by
  induction ps with
  | nil => rfl
  | cons a t ih =>
    obtain ⟨h1, h2⟩ := h a (List.mem_cons_self a t)
    have ht := ih (fun p hp => h p (List.mem_cons_of_mem a hp))
    rcases lt_or_le a 0 with ha | ha
    · have hfirst : ¬(0 ≤ a ∧ a < (lut.length : ℤ)) := by omega
      simp [lutMapList, pyListGet, hfirst, h1, ha, ht]
    · have hfirst : 0 ≤ a ∧ a < (lut.length : ℤ) := ⟨ha, h2⟩
      simp [lutMapList, pyListGet, hfirst, not_lt.mpr ha, ht]

lemma lutMapList_none (lut : List ℤ) (ps : List ℤ)
    (h : ∃ p ∈ ps, p < -(lut.length : ℤ) ∨ (lut.length : ℤ) ≤ p) :
    lutMapList lut ps = none := by
  induction ps with
  | nil => simp at h
  | cons a t ih =>
    rcases h with ⟨p, hp, hout⟩
    rcases List.mem_cons.mp hp with rfl | hmem
    · have h1 : ¬(0 ≤ p ∧ p < (lut.length : ℤ)) := by omega
      have h2 : ¬(-(lut.length : ℤ) ≤ p ∧ p < 0) := by omega
      simp [lutMapList, pyListGet, h1, h2]
    · have ht := ih ⟨p, hmem, hout⟩
      cases hg : pyListGet lut a <;> simp [lutMapList, hg, ht]

/-- C8 fails on the code: a sample of `-1` lies outside `[0, len(table))`,
yet `apply_lut` does not fail — Python list indexing wraps negative indices
in `[-len, 0)` around to the end, so `lut[-1]` reads the last entry. -/
theorem C8_counterexample :
    (mkLineScan [(-1 : ℤ)] {}).apply_lut [10, 20] =
      some { samples := [20], image := none, pt1 := none, pt2 := none,
             row := none, col := none, channel := -1,
             point_loc := [(0, 0)] } ∧
    (-1 : ℤ) < 0 := by decide

/-- C8 amended: `apply_lut` fails (raises IndexError) exactly when some
sample lies outside `[-len(table), len(table))`; otherwise it returns a new
Signal whose i-th sample is `table[samples[i]]` under Python indexing
(negative samples in `[-len, 0)` read `table[len + samples[i]]`), with
metadata copied from the input. -/
theorem C8_amended_thm (lut : List ℤ) (s : LineScan ℤ) :
    ((∀ p ∈ s.samples, -(lut.length : ℤ) ≤ p ∧ p < lut.length) →
      ∃ r, s.apply_lut lut = some r ∧
        r.samples = s.samples.map (fun p =>
          lut.getD (if p < 0 then ((lut.length : ℤ) + p).toNat else p.toNat) 0) ∧
        metaOf r = metaOf s) ∧
    ((∃ p ∈ s.samples, p < -(lut.length : ℤ) ∨ (lut.length : ℤ) ≤ p) →
      s.apply_lut lut = none) := by
  constructor
  · intro h
    refine ⟨(mkLineScan (s.samples.map (fun p =>
        lut.getD (if p < 0 then ((lut.length : ℤ) + p).toNat else p.toNat) 0))
        { image := s.image, point_loc := some s.point_loc,
          pt1 := s.pt1, pt2 := s.pt2 }).update s, ?_, rfl, rfl⟩
    rw [LineScan.apply_lut, lutMapList_some lut _ h, Option.map_some']
  · intro h
    rw [LineScan.apply_lut, lutMapList_none lut _ h, Option.map_none']

theorem C8_amended_witness :
    (mkLineScan [(-1 : ℤ), 1] {}).apply_lut [10, 20] ≠ none ∧
    (mkLineScan [(2 : ℤ)] {}).apply_lut [10, 20] = none := by
  constructor
  · obtain ⟨r, h1, -, -⟩ :=
      (C8_amended_thm [10, 20] (mkLineScan [(-1 : ℤ), 1] {})).1 (by decide)
    simp [h1]
  · exact (C8_amended_thm [10, 20] (mkLineScan [(2 : ℤ)] {})).2
      ⟨2, by decide, by decide⟩

lemma update_samples {α : Type} (r s : LineScan α) :
    (r.update s).samples = r.samples := rfl

lemma mkLineScan_samples {α : Type} (args : List α) (kw : Kwargs) :
    (mkLineScan args kw).samples = args := rfl

lemma getD_append_lt {α : Type} (l₁ l₂ : List α) (j : ℕ) (d : α)
    (h : j < l₁.length) : (l₁ ++ l₂).getD j d = l₁.getD j d := by
  rw [List.getD_eq_getElem?_getD, List.getD_eq_getElem?_getD,
    List.getElem?_append, if_pos h]

lemma getD_append_ge {α : Type} (l₁ l₂ : List α) (j : ℕ) (d : α)
    (h : l₁.length ≤ j) :
    (l₁ ++ l₂).getD j d = l₂.getD (j - l₁.length) d := by
  rw [List.getD_eq_getElem?_getD, List.getD_eq_getElem?_getD,
    List.getElem?_append_right h]

lemma getD_take_lt {α : Type} (l : List α) (n j : ℕ) (d : α) (h : j < n) :
    (l.take n).getD j d = l.getD j d := by
  rw [List.getD_eq_getElem?_getD, List.getD_eq_getElem?_getD,
    List.getElem?_take, if_pos h]

lemma getD_drop {α : Type} (l : List α) (n j : ℕ) (d : α) :
    (l.drop n).getD j d = l.getD (n + j) d := by
  rw [List.getD_eq_getElem?_getD, List.getD_eq_getElem?_getD,
    List.getElem?_drop]

lemma getD_map_range' {α : Type} (f : ℕ → α) (a n m : ℕ) (d : α) (h : m < n) :
    ((List.range' a n).map f).getD m d = f (a + m) := by
  rw [List.getD_eq_getElem?_getD, List.getElem?_map, List.getElem?_range' _ _ h]
  simp

lemma getD_map_range {α : Type} (f : ℕ → α) (n m : ℕ) (d : α) (h : m < n) :
    ((List.range n).map f).getD m d = f m := by
  rw [List.getD_eq_getElem?_getD, List.getElem?_map, List.getElem?_range h]
  simp

lemma getD3_left {α : Type} (A B C : List α) (j : ℕ) (d : α)
    (h : j < A.length) : (A ++ B ++ C).getD j d = A.getD j d := by
  rw [getD_append_lt _ _ _ _ (by simp only [List.length_append]; omega),
    getD_append_lt _ _ _ _ h]

lemma getD3_mid {α : Type} (A B C : List α) (j : ℕ) (d : α)
    (h1 : A.length ≤ j) (h2 : j < A.length + B.length) :
    (A ++ B ++ C).getD j d = B.getD (j - A.length) d := by
  rw [getD_append_lt _ _ _ _ (by simp only [List.length_append]; omega),
    getD_append_ge _ _ _ _ h1]

lemma getD3_right {α : Type} (A B C : List α) (j : ℕ) (d : α)
    (h : A.length + B.length ≤ j) :
    (A ++ B ++ C).getD j d = C.getD (j - A.length - B.length) d := by
  rw [getD_append_ge _ _ _ _ (by simp only [List.length_append]; omega)]
  congr 1
  simp only [List.length_append]
  omega

/-- C5 fails on the code: on samples `[0,9,0]` with window size 3
(`skip = 1`), the interior value at index 1 is
`npy.median(self[0:2]) = median([0, 9]) = 9/2` — the window `[i-skip, i+skip)`
has only `2*skip` elements and excludes `self[i+skip]` — whereas the median
of the 3-wide neighbourhood centred at 1, `[0, 9, 0]`, is 0. -/
theorem C5_counterexample :
    ((mkLineScan [(0 : ℚ), 9, 0] {}).median 3).samples.getD 1 0 = 9 / 2 ∧
    npMedian [(0 : ℚ), 9, 0] = 0 ∧ (9 / 2 : ℚ) ≠ 0 := by
  have h1 : ((mkLineScan [(0 : ℚ), 9, 0] {}).median 3).samples
      = [0, npMedian [(0 : ℚ), 9], 0] := by
    norm_num [LineScan.median, mkLineScan, LineScan.update, List.range']
  refine ⟨?_, ?_, by norm_num⟩
  · rw [h1]
    norm_num [npMedian, List.insertionSort, List.orderedInsert]
  · norm_num [npMedian, List.insertionSort, List.orderedInsert]

/-- C5 amended: with `sz` the window size forced odd and
`skip = sz / 2 = floor(size/2)` (for `size ≥ 2` and signals of length
`≥ 2*skip`), the sliding median preserves the length, passes the first and
last `skip` samples through unmodified, and every interior index `i` holds
the numpy median of the `2*skip` samples `self[i-skip : i+skip]` — the
asymmetric window that EXCLUDES the right edge of the centred `sz`-wide
neighbourhood (numpy averages the two middle order statistics of this
even-sized window). -/
theorem C5_amended_thm (s : LineScan ℚ) (size skip : ℕ)
    (hsize : 2 ≤ size)
    (hskip : skip = (if size % 2 = 0 then size + 1 else size) / 2)
    (hn : 2 * skip ≤ s.samples.length) :
    ((s.median size).samples.length = s.samples.length) ∧
    (∀ j, j < skip → (s.median size).samples.getD j 0 = s.samples.getD j 0) ∧
    (∀ j, s.samples.length - skip ≤ j → j < s.samples.length →
      (s.median size).samples.getD j 0 = s.samples.getD j 0) ∧
    (∀ i, skip ≤ i → i < s.samples.length - skip →
      (s.median size).samples.getD i 0 =
        npMedian ((s.samples.drop (i - skip)).take (2 * skip))) := by
  have hsz3 : 3 ≤ (if size % 2 = 0 then size + 1 else size) := by
    split <;> omega
  have hskip1 : 1 ≤ skip := by omega
  have hmed : (s.median size).samples =
      s.samples.take skip
        ++ (List.range' skip (s.samples.length - skip - skip)).map (fun i =>
              npMedian ((s.samples.drop (i - skip)).take (i + skip - (i - skip))))
        ++ s.samples.drop (s.samples.length - skip) := by
    rw [LineScan.median]
    simp only [update_samples, mkLineScan_samples, ← hskip]
    rw [if_neg (by omega : ¬skip = 0)]
  have hA : (s.samples.take skip).length = skip := by
    simp [List.length_take]
    omega
  have hB : ((List.range' skip (s.samples.length - skip - skip)).map (fun i =>
      npMedian ((s.samples.drop (i - skip)).take (i + skip - (i - skip))))).length
      = s.samples.length - skip - skip := by
    simp
  have hC : (s.samples.drop (s.samples.length - skip)).length = skip := by
    simp [List.length_drop]
    omega
  refine ⟨?_, ?_, ?_, ?_⟩
  · rw [hmed]
    simp only [List.length_append, hA, hB, hC]
    omega
  · intro j hj
    rw [hmed, getD3_left _ _ _ _ _ (by rw [hA]; exact hj),
      getD_take_lt _ _ _ _ hj]
  · intro j hj1 hj2
    rw [hmed, getD3_right _ _ _ _ _ (by rw [hA, hB]; omega), getD_drop]
    congr 1
    rw [hA, hB]
    omega
  · intro i hi1 hi2
    rw [hmed, getD3_mid _ _ _ _ _ (by rw [hA]; exact hi1) (by rw [hA, hB]; omega),
      hA, getD_map_range' _ _ _ _ _ (by omega : i - skip < s.samples.length - skip - skip)]
    have e1 : skip + (i - skip) = i := by omega
    rw [e1]
    have e2 : i + skip - (i - skip) = 2 * skip := by omega
    rw [e2]

theorem C5_amended_witness :
    ((mkLineScan [(0 : ℚ), 0, 0, 9, 0, 0, 0] {}).median 3).samples.length = 7 ∧
    ((mkLineScan [(0 : ℚ), 0, 0, 9, 0, 0, 0] {}).median 3).samples.getD 3 0 =
      npMedian (((mkLineScan [(0 : ℚ), 0, 0, 9, 0, 0, 0] {}).samples.drop 2).take 2) := by
  have h := C5_amended_thm (mkLineScan [(0 : ℚ), 0, 0, 9, 0, 0, 0] {}) 3 1
    (by decide) (by decide) (by decide)
  exact ⟨h.1.trans (by decide), (h.2.2.2 3 (by decide) (by decide)).trans rfl⟩

/-- C4: for `degree ≥ 1` with `2*degree - 1 ≤ length`, Gaussian smoothing
preserves the length, passes the first `degree-1` and last `degree` samples
through unmodified, and every remaining position `degree-1+i` holds the
weighted average of the `(2*degree-1)`-wide neighbourhood `self[i:i+window]`
with the Gaussian weights normalised by the weight sum; the weights are
`exp(-(4*(i - degree + 1)/window)^2)` across the window. -/
theorem C4_smooth_thm (s : LineScan ℝ) (d : ℕ) (hd : 1 ≤ d)
    (hw : 2 * d - 1 ≤ s.samples.length) :
    ∃ r, s.smooth d = some r ∧
    (r.samples.length = s.samples.length) ∧
    (∀ j, j < d - 1 → r.samples.getD j 0 = s.samples.getD j 0) ∧
    (∀ j, s.samples.length - d ≤ j → j < s.samples.length →
      r.samples.getD j 0 = s.samples.getD j 0) ∧
    (∀ i, i < s.samples.length - (2 * d - 1) →
      r.samples.getD (d - 1 + i) 0 =
        (List.zipWith (· * ·) ((s.samples.drop i).take (2 * d - 1))
          (gaussWeights d)).sum / (gaussWeights d).sum) ∧
    (∀ i, i < 2 * d - 1 → (gaussWeights d).getD i 0 =
      Real.exp (-((4 * (((i : ℝ) - d + 1) / (2 * d - 1))) ^ 2))) := by
  refine ⟨(mkLineScan (smoothWithSamples (gaussWeights d) d s.samples)
      { image := s.image, point_loc := some s.point_loc,
        pt1 := s.pt1, pt2 := s.pt2 }).update s, ?_, ?_⟩
  · rw [LineScan.smooth, LineScan.smoothWith, if_neg (by omega : ¬d = 0)]
  have hsm : ((mkLineScan (smoothWithSamples (gaussWeights d) d s.samples)
      { image := s.image, point_loc := some s.point_loc,
        pt1 := s.pt1, pt2 := s.pt2 }).update s).samples =
      s.samples.take (d - 1)
        ++ (List.range (s.samples.length - (2 * d - 1))).map (fun i =>
            (List.zipWith (· * ·) ((s.samples.drop i).take (2 * d - 1))
              (gaussWeights d)).sum / (gaussWeights d).sum)
        ++ s.samples.drop (s.samples.length - d) := by
    simp only [update_samples, mkLineScan_samples, smoothWithSamples]
  have hA : (s.samples.take (d - 1)).length = d - 1 := by
    simp only [List.length_take]
    omega
  have hB : ((List.range (s.samples.length - (2 * d - 1))).map (fun i =>
      (List.zipWith (· * ·) ((s.samples.drop i).take (2 * d - 1))
        (gaussWeights d)).sum / (gaussWeights d).sum)).length
      = s.samples.length - (2 * d - 1) := by
    simp
  have hC : (s.samples.drop (s.samples.length - d)).length = d := by
    simp only [List.length_drop]
    omega
  refine ⟨?_, ?_, ?_, ?_, ?_⟩
  · rw [hsm]
    simp only [List.length_append, hA, hB, hC]
    omega
  · intro j hj
    rw [hsm, getD3_left _ _ _ _ _ (by rw [hA]; exact hj),
      getD_take_lt _ _ _ _ hj]
  · intro j hj1 hj2
    rw [hsm, getD3_right _ _ _ _ _ (by rw [hA, hB]; omega), getD_drop]
    congr 1
    rw [hA, hB]
    omega
  · intro i hi
    rw [hsm, getD3_mid _ _ _ _ _ (by rw [hA]; omega) (by rw [hA, hB]; omega),
      hA]
    have e1 : d - 1 + i - (d - 1) = i := by omega
    rw [e1, getD_map_range _ _ _ _ hi]
  · intro i hi
    rw [gaussWeights, getD_map_range _ _ _ _ hi, one_div, ← Real.exp_neg]

theorem C4_smooth_witness :
    ((mkLineScan [(1 : ℝ), 2, 3] {}).smooth 1).map (fun r => r.samples.length)
      = some 3 ∧
    ((mkLineScan [(1 : ℝ), 2, 3] {}).smooth 1).map (fun r => r.samples.getD 2 0)
      = some ((mkLineScan [(1 : ℝ), 2, 3] {}).samples.getD 2 0) := by
  obtain ⟨r, hr, hlen, hfront, hback, hint, hwts⟩ :=
    C4_smooth_thm (mkLineScan [(1 : ℝ), 2, 3] {}) 1 (by decide) (by decide)
  rw [hr]
  exact ⟨congrArg some (hlen.trans (by decide)),
    congrArg some (hback 2 (by decide) (by decide))⟩

/-- C1 fails on the code: a contiguous slice goes through
`LineScan(item)` with no keyword arguments and no `_update`, so its
metadata is reset to the defaults instead of being copied — here the
input's channel 5 becomes the slice's default channel -1. -/
theorem C1_counterexample :
    metaOf ((mkLineScan [(1 : ℚ), 2]
        { channel := some 5, image := some 3 }).sliceLS 0 1) ≠
      metaOf (mkLineScan [(1 : ℚ), 2]
        { channel := some 5, image := some 3 }) := by decide

/-- C1 amended: the operations that call `_update` (elementwise add, sub,
mul; smoothing; normalization; scaling; median; threshold; invert; LUT
application) do copy source, endpoints, channel and coordinates from their
input whenever they return a Signal (divide never returns one, smoothing
raises at degree 0, normalization and scaling raise on an empty signal,
LUT application raises on an out-of-range sample); but `convolve` — when it
returns a Signal at all, i.e. on a nonempty signal and kernel — copies only
source, endpoints and channel while resetting the coordinates to the
identity mapping (its `point_loc=` keyword is dropped by the constructor
and it never calls `_update`), and a contiguous slice resets all five
fields to the defaults (no source, no endpoints, channel -1, identity
coordinates). -/
theorem C1_amended_thm :
    (∀ s t r : LineScan ℚ, s.add t = some r → metaOf r = metaOf s) ∧
    (∀ s t r : LineScan ℚ, s.sub t = some r → metaOf r = metaOf s) ∧
    (∀ s t r : LineScan ℚ, s.mul t = some r → metaOf r = metaOf s) ∧
    (∀ (w : List ℚ) (d : ℕ) (s r : LineScan ℚ),
      s.smoothWith w d = some r → metaOf r = metaOf s) ∧
    (∀ (d : ℕ) (s r : LineScan ℝ), s.smooth d = some r → metaOf r = metaOf s) ∧
    (∀ s r : LineScan ℚ, s.normalize = some r → metaOf r = metaOf s) ∧
    (∀ (s r : LineScan ℚ) (lo hi : ℚ),
      s.scale lo hi = some r → metaOf r = metaOf s) ∧
    (∀ (s : LineScan ℚ) (sz : ℕ), metaOf (s.median sz) = metaOf s) ∧
    (∀ (s : LineScan ℚ) (thr : ℚ) (inv : Bool),
      metaOf (s.threshold thr inv) = metaOf s) ∧
    (∀ s : LineScan ℚ, metaOf s.invert = metaOf s) ∧
    (∀ (s : LineScan ℤ) (lut : List ℤ) (r : LineScan ℤ),
      s.apply_lut lut = some r → metaOf r = metaOf s) ∧
    (∀ (s : LineScan ℚ) (k : List ℚ) (r : LineScan ℚ), s.convolve k = some r →
      r.image = s.image ∧ r.pt1 = s.pt1 ∧ r.pt2 = s.pt2 ∧
      r.channel = s.channel ∧
      r.point_loc = identityLoc (max s.samples.length k.length)) ∧
    (∀ (s : LineScan ℚ) (a b : ℕ),
      metaOf (s.sliceLS a b) =
        (none, none, none, -1,
          identityLoc ((s.samples.drop a).take (b - a)).length)) := by
  refine ⟨?_, ?_, ?_, ?_, ?_, ?_, ?_, ?_, ?_, ?_, ?_, ?_, ?_⟩
  · intro s t r h
    rw [LineScan.add] at h
    split at h
    · obtain rfl := Option.some.inj h
      rfl
    · exact Option.noConfusion h
  · intro s t r h
    rw [LineScan.sub] at h
    split at h
    · obtain rfl := Option.some.inj h
      rfl
    · exact Option.noConfusion h
  · intro s t r h
    rw [LineScan.mul] at h
    split at h
    · obtain rfl := Option.some.inj h
      rfl
    · exact Option.noConfusion h
  · intro w d s r h
    rw [LineScan.smoothWith] at h
    split at h
    · exact Option.noConfusion h
    · obtain rfl := Option.some.inj h
      rfl
  · intro d s r h
    rw [LineScan.smooth, LineScan.smoothWith] at h
    split at h
    · exact Option.noConfusion h
    · obtain rfl := Option.some.inj h
      rfl
  · intro s r h
    rw [LineScan.normalize] at h
    split at h
    · exact Option.noConfusion h
    · obtain rfl := Option.some.inj h
      rfl
  · intro s r lo hi h
    rw [LineScan.scale] at h
    split at h
    · exact Option.noConfusion h
    · obtain rfl := Option.some.inj h
      rfl
  · intro s sz
    rfl
  · intro s thr inv
    rfl
  · intro s
    rfl
  · intro s lut r h
    rw [LineScan.apply_lut] at h
    obtain ⟨out, -, rfl⟩ := Option.map_eq_some'.mp h
    rfl
  · intro s k r h
    rw [LineScan.convolve] at h
    split at h
    · exact Option.noConfusion h
    · obtain rfl := Option.some.inj h
      refine ⟨rfl, rfl, rfl, rfl, ?_⟩
      show identityLoc (npConvolveSame s.samples k).length
        = identityLoc (max s.samples.length k.length)
      congr 1
      simp [npConvolveSame]
  · intro s a b
    rfl

/-- A concrete metadata-rich left operand used to instantiate
`C1_amended_thm`. -/
def lsA : LineScan ℚ :=
  { samples := [1, 2], image := some 7, pt1 := some (1, 2),
    pt2 := some (3, 4), row := none, col := none, channel := 9,
    point_loc := [(5, 5), (6, 6)] }

/-- A plain right operand of matching length. -/
def lsB : LineScan ℚ := mkLineScan [2, 3] {}

/-- An integer-sampled metadata-rich Signal for `apply_lut`. -/
def lsZ : LineScan ℤ :=
  { samples := [0, 1], image := some 7, pt1 := some (1, 2),
    pt2 := some (3, 4), row := none, col := none, channel := 9,
    point_loc := [(5, 5), (6, 6)] }

/-- `lsA + lsB`. -/
def rAdd : LineScan ℚ :=
  { samples := [3, 5], image := some 7, pt1 := some (1, 2),
    pt2 := some (3, 4), row := none, col := none, channel := 9,
    point_loc := [(5, 5), (6, 6)] }

/-- `lsA - lsB`. -/
def rSub : LineScan ℚ :=
  { samples := [-1, -1], image := some 7, pt1 := some (1, 2),
    pt2 := some (3, 4), row := none, col := none, channel := 9,
    point_loc := [(5, 5), (6, 6)] }

/-- `lsA * lsB`. -/
def rMul : LineScan ℚ :=
  { samples := [2, 6], image := some 7, pt1 := some (1, 2),
    pt2 := some (3, 4), row := none, col := none, channel := 9,
    point_loc := [(5, 5), (6, 6)] }

/-- `lsA.normalize()`. -/
def rNorm : LineScan ℚ :=
  { samples := [1 / 2, 1], image := some 7, pt1 := some (1, 2),
    pt2 := some (3, 4), row := none, col := none, channel := 9,
    point_loc := [(5, 5), (6, 6)] }

/-- `lsA.scale((0, 1))`. -/
def rScale : LineScan ℚ :=
  { samples := [0, 1], image := some 7, pt1 := some (1, 2),
    pt2 := some (3, 4), row := none, col := none, channel := 9,
    point_loc := [(5, 5), (6, 6)] }

/-- `lsZ.apply_lut([10, 20])`. -/
def rLut : LineScan ℤ :=
  { samples := [10, 20], image := some 7, pt1 := some (1, 2),
    pt2 := some (3, 4), row := none, col := none, channel := 9,
    point_loc := [(5, 5), (6, 6)] }

/-- `lsA.smoothWith([1], 1)` (degree-1 smoothing is the identity on the
samples). -/
def rSmoothW : LineScan ℚ :=
  { samples := [1, 2], image := some 7, pt1 := some (1, 2),
    pt2 := some (3, 4), row := none, col := none, channel := 9,
    point_loc := [(5, 5), (6, 6)] }

/-- `lsA.convolve([1])`: samples preserved, metadata propagated through the
constructor kwargs only — `point_loc` reset to the identity mapping. -/
def rConv : LineScan ℚ :=
  { samples := [1, 2], image := some 7, pt1 := some (1, 2),
    pt2 := some (3, 4), row := none, col := none, channel := 9,
    point_loc := [(0, 0), (1, 1)] }

theorem C1_amended_witness :
    metaOf rAdd = metaOf lsA ∧ metaOf rSub = metaOf lsA ∧
    metaOf rMul = metaOf lsA ∧
    metaOf rSmoothW = metaOf lsA ∧
    ((mkLineScan ([] : List ℝ) {}).smooth 1).map metaOf
      = some (metaOf (mkLineScan ([] : List ℝ) {})) ∧
    metaOf rNorm = metaOf lsA ∧ metaOf rScale = metaOf lsA ∧
    metaOf (lsA.median 5) = metaOf lsA ∧
    metaOf (lsA.threshold 128 false) = metaOf lsA ∧
    metaOf lsA.invert = metaOf lsA ∧
    metaOf rLut = metaOf lsZ ∧
    rConv.channel = lsA.channel ∧
    metaOf (lsA.sliceLS 0 1) =
      (none, none, none, -1,
        identityLoc ((lsA.samples.drop 0).take (1 - 0)).length) := by
  obtain ⟨hadd, hsub, hmul, hsw, hsr, hnorm, hscale, hmedian, hthr, hinv,
    hlut, hconv, hslice⟩ := C1_amended_thm
  refine ⟨hadd lsA lsB rAdd ?_, hsub lsA lsB rSub ?_, hmul lsA lsB rMul ?_,
    hsw [1] 1 lsA rSmoothW ?_, ?_, hnorm lsA rNorm ?_, hscale lsA rScale 0 1 ?_,
    hmedian lsA 5, hthr lsA 128 false, hinv lsA,
    hlut lsZ [10, 20] rLut (by decide), (hconv lsA [1] rConv ?_).2.2.2.1,
    hslice lsA 0 1⟩
  · norm_num [LineScan.add, lsA, lsB, rAdd, mkLineScan, LineScan.update,
      identityLoc]
  · norm_num [LineScan.sub, lsA, lsB, rSub, mkLineScan, LineScan.update,
      identityLoc]
  · norm_num [LineScan.mul, lsA, lsB, rMul, mkLineScan, LineScan.update,
      identityLoc]
  · norm_num [LineScan.smoothWith, smoothWithSamples, lsA, rSmoothW,
      mkLineScan, LineScan.update, identityLoc, List.range_succ]
  · rw [show (mkLineScan ([] : List ℝ) {}).smooth 1
        = some (mkLineScan ([] : List ℝ) {}) from rfl]
    exact congrArg some (hsr 1 (mkLineScan ([] : List ℝ) {})
      (mkLineScan ([] : List ℝ) {}) rfl)
  · norm_num [LineScan.normalize, lsA, rNorm, npMax, mkLineScan,
      LineScan.update, identityLoc]
  · norm_num [LineScan.scale, lsA, rScale, npMax, npMin, mkLineScan,
      LineScan.update, identityLoc]
  · norm_num [LineScan.convolve, npConvolveSame, npConvolveFull, lsA, rConv,
      mkLineScan, identityLoc, List.range_succ]
    intro hcontra
    exact absurd hcontra (by simp)

end PhloxAR
